import Mathlib

/-!
Verification of the attio-cli filter / values / pagination layer.

Shallow embedding of the pure parsing and pagination logic of the
`attio-cli` repository:

* `src/filters.ts` — `OPERATORS`, `parseFilterFlag`, `combineFilters`, `parseSort`
* `src/values.ts` — `flattenValue`, `parseScalar`, `parseSets`,
  `stripWrappingQuotes`
* `src/pagination.ts` — `paginate`

JavaScript strings are modelled as Lean `String` (operating on `List Char`
where convenient), JavaScript objects/values as the inductive `JVal`
(numbers as `Rat`; the JS `Number` type is a float, but every number any
of the verified code paths produces from the inputs considered here is a
small decimal, where float and rational semantics agree).  Fallible code
returns `Except`/`Option`.  The non-terminating `while (true)` pagination
loop is embedded with explicit fuel: `none` means the loop has not
terminated within the given fuel bound, and a result that is `none` for
every fuel is a divergent run.
-/

/-- The whitespace characters trimmed by the JS `String.prototype.trim`
(restricted to the ASCII whitespace actually produced by CLI input; the
full JS definition also trims rarer Unicode space characters, which no
claim exercises). -/
def isWsChar (c : Char) : Bool :=
  c = ' ' || c = '\t' || c = '\n' || c = '\r'

/-- JS `trim()` on a list of characters. -/
def jsTrimL (cs : List Char) : List Char :=
  ((cs.dropWhile isWsChar).reverse.dropWhile isWsChar).reverse

/-- JS `s.trim()`. -/
def jsTrim (s : String) : String := ⟨jsTrimL s.data⟩

/-- JS `s.slice(0, n)` for `0 ≤ n`. -/
def strTake (s : String) (n : Nat) : String := ⟨s.data.take n⟩

/-- JS `s.slice(n)` for `0 ≤ n`. -/
def strDrop (s : String) (n : Nat) : String := ⟨s.data.drop n⟩

/-- JS `s.slice(0, -1)`. -/
def strDropLast (s : String) : String := ⟨s.data.dropLast⟩

/-- JS `s.endsWith(c)` for a one-character suffix `c`. -/
def endsWithChar (s : String) (c : Char) : Bool :=
  match s.data.getLast? with
  | some c' => c' = c
  | none => false

/-- JS `s.startsWith(c)` for a one-character head `c`. -/
def startsWithChar (s : String) (c : Char) : Bool :=
  match s.data.head? with
  | some c' => c' = c
  | none => false

/-- JS `hay.indexOf(pat)` on character lists: position of the first
occurrence of `pat` as a contiguous sublist (`none` plays JS's `-1`). -/
def listIndexOfSub (pat : List Char) : List Char → Option Nat
  | [] => if pat = [] then some 0 else none
  | c :: rest =>
    if pat.isPrefixOf (c :: rest) then some 0
    else (listIndexOfSub pat rest).map (· + 1)

/-- JS `s.indexOf(pat)`. -/
def strIndexOf (s pat : String) : Option Nat :=
  listIndexOfSub pat.data s.data

/-- JS `s.split(sep)` for a single-character separator `sep`
(which always yields at least one piece, and an empty piece between
adjacent separators / at the ends). -/
def splitOnCharL (sep : Char) : List Char → List (List Char)
  | [] => [[]]
  | c :: rest =>
    let r := splitOnCharL sep rest
    if c = sep then [] :: r
    else
      match r with
      | [] => [[c]]
      | h :: t => (c :: h) :: t

/-- Value of a list of decimal digit characters. -/
def digitsToNat (ds : List Char) : Nat :=
  ds.foldl (fun a c => a * 10 + (c.toNat - 48)) 0

/-- The rational `0.d₁d₂…` named by a list of fraction digits. -/
def fracRat (ds : List Char) : Rat :=
  (digitsToNat ds : Rat) / ((10 : Rat) ^ ds.length)

/-- Negate when the flag is set (the parsed `-` sign). -/
def applySign (neg : Bool) (q : Rat) : Rat := if neg then -q else q

/-- The JS `Number(s)` conversion, on the fragment of its grammar the CLI
feeds it: optional sign, decimal digits, optional fraction; the empty
(trimmed) string converts to `0`.  `none` plays JS's `NaN`.  (JS `Number`
additionally accepts hex/binary/exponent/`Infinity` forms, which no
claim and no CLI filter value exercises.) -/
def jsNumber (s : String) : Option Rat :=
  let cs := jsTrimL s.data
  if cs = [] then some 0
  else
    let signed : Bool × List Char :=
      match cs with
      | '-' :: t => (true, t)
      | '+' :: t => (false, t)
      | _ => (false, cs)
    let ip := signed.2.takeWhile Char.isDigit
    let rest := signed.2.dropWhile Char.isDigit
    match rest with
    | [] => if ip = [] then none else some (applySign signed.1 (digitsToNat ip))
    | '.' :: fr =>
      if fr.all Char.isDigit && !(ip = [] && fr = []) then
        some (applySign signed.1 ((digitsToNat ip : Rat) + fracRat fr))
      else none
    | _ => none

/-- Whether `s` matches the anchored regex `/^-?\d+(\.\d+)?$/` used by
`parseScalar` in `src/values.ts`. -/
def numRegexMatch (s : String) : Bool :=
  let cs := match s.data with
    | '-' :: t => t
    | l => l
  let ip := cs.takeWhile Char.isDigit
  let rest := cs.dropWhile Char.isDigit
  decide (ip ≠ []) &&
    (match rest with
     | [] => true
     | '.' :: fr => decide (fr ≠ []) && fr.all Char.isDigit
     | _ => false)

/-- `Number(s)` for a string already known to match
`/^-?\d+(\.\d+)?$/`: optional sign, digits, optional fraction.
(Falls back to `0` off that grammar; never reached off it.) -/
def parseDecimal (s : String) : Rat :=
  let signed : Bool × List Char :=
    match s.data with
    | '-' :: t => (true, t)
    | l => (false, l)
  let ip := signed.2.takeWhile Char.isDigit
  let rest := signed.2.dropWhile Char.isDigit
  match rest with
  | '.' :: fr => applySign signed.1 ((digitsToNat ip : Rat) + fracRat fr)
  | _ => applySign signed.1 (digitsToNat ip)

/-- JSON-ish JavaScript values: the data manipulated by the CLI's filter
and value helpers.  Numbers are rationals (see the header comment). -/
inductive JVal where
  | s : String → JVal
  | n : Rat → JVal
  | b : Bool → JVal
  | null : JVal
  | arr : List JVal → JVal
  | obj : List (String × JVal) → JVal
deriving Repr, Inhabited

/-- JS property access `v[key]` on our values: field lookup on an object,
`undefined` (= `none`) on everything else and on a missing key.  JS
objects keep at most one binding per key; lookup takes the first. -/
def getField (v : JVal) (key : String) : Option JVal :=
  match v with
  | .obj fields => (fields.find? (fun p => p.1 = key)).map (·.2)
  | _ => none

/-- JS falsiness of a present value: `null`, `false`, `0`, `""`.
(`NaN` is not representable in the model; `undefined` is handled by
`Option` at the use sites.) -/
def jsFalsy : JVal → Bool
  | .null => true
  | .b false => true
  | .n q => q = 0
  | .s str => str = ""
  | _ => false

/-- Decimal rendering of an integer-valued `Rat`, as JS prints integral
numbers.  Non-integral rationals are rendered `num/den`; JS prints the
shortest float form there, which no claim exercises. -/
def ratToJsString (q : Rat) : String :=
  if q.den = 1 then
    (if q.num < 0 then "-" ++ Nat.repr q.num.natAbs else Nat.repr q.num.natAbs)
  else
    (if q.num < 0 then "-" ++ Nat.repr q.num.natAbs else Nat.repr q.num.natAbs)
      ++ "/" ++ Nat.repr q.den

mutual

/-- JS `String(v)` conversion: identity on strings, `"true"/"false"`,
`"null"`, decimal numbers, `Array.prototype.toString` (elements joined by
`","`, with `null` rendering empty inside arrays) and `"[object Object]"`
for plain objects. -/
def jsToString : JVal → String
  | .s str => str
  | .n q => ratToJsString q
  | .b true => "true"
  | .b false => "false"
  | .null => "null"
  | .arr xs => String.intercalate "," (jsToStringArr xs)
  | .obj _ => "[object Object]"

/-- Elementwise rendering inside `Array.prototype.toString`: `null`
renders as the empty string there. -/
def jsToStringArr : List JVal → List String
  | [] => []
  | .null :: xs => "" :: jsToStringArr xs
  | x :: xs => jsToString x :: jsToStringArr xs

end

/-- Escaping of `JSON.stringify` string output (the escapes the CLI data
can contain; `\u` escapes for other control characters are not produced
by any claim input). -/
def escapeJsonChar (c : Char) : String :=
  if c = '"' then "\\\"" else
  if c = '\\' then "\\\\" else
  if c = '\n' then "\\n" else
  if c = '\t' then "\\t" else
  if c = '\r' then "\\r" else
  String.singleton c

def escapeJsonString (s : String) : String :=
  String.join (s.data.map escapeJsonChar)

mutual

/-- JS `JSON.stringify(v)` (no indent argument). -/
def jsonStringify : JVal → String
  | .s str => "\"" ++ escapeJsonString str ++ "\""
  | .n q => ratToJsString q
  | .b true => "true"
  | .b false => "false"
  | .null => "null"
  | .arr xs => "[" ++ String.intercalate "," (jsonStringifyArr xs) ++ "]"
  | .obj ms => "\x7b" ++ String.intercalate "," (jsonStringifyMems ms) ++ "\x7d"

/-- `JSON.stringify` over the elements of an array. -/
def jsonStringifyArr : List JVal → List String
  | [] => []
  | x :: xs => jsonStringify x :: jsonStringifyArr xs

/-- `JSON.stringify` over the members of an object. -/
def jsonStringifyMems : List (String × JVal) → List String
  | [] => []
  | (k, v) :: ms =>
    ("\"" ++ escapeJsonString k ++ "\":" ++ jsonStringify v) :: jsonStringifyMems ms

end

/-! ## `src/filters.ts` -/

/-- One entry of the `OPERATORS` table of `src/filters.ts`: the CLI
token, the Attio API operator name, and the flags carried by the table
(`wrapEq`/`wrapContains` are present in the source but unused — the
dispatch at the end of `parseFilterFlag` tests `op.cli` directly). -/
structure OpSpec where
  cli : String
  attio : String
  numeric : Bool := false
  unary : Bool := false
  wrapEq : Bool := false
  wrapContains : Bool := false
deriving Repr, DecidableEq

/-- The `OPERATORS` table of `src/filters.ts`, in source order: matching
tries longer tokens before the shorter tokens they extend. -/
def OPERATORS : List OpSpec :=
  [ { cli := ">=", attio := "$gte", numeric := true },
    { cli := "<=", attio := "$lte", numeric := true },
    { cli := "!=", attio := "$not", wrapEq := true },
    { cli := ">", attio := "$gt", numeric := true },
    { cli := "<", attio := "$lt", numeric := true },
    { cli := "!~", attio := "$not", wrapContains := true },
    { cli := "~", attio := "$contains" },
    { cli := "^", attio := "$starts_with" },
    { cli := "?", attio := "$not_empty", unary := true },
    { cli := "=", attio := "$eq" } ]

/-- The operator-selection loop of `parseFilterFlag`: walk the table in
order, skip unary entries, and return the first operator whose token
occurs in the expression, together with the index of that occurrence. -/
def findOp : List OpSpec → String → Option (OpSpec × Nat)
  | [], _ => none
  | op :: rest, str =>
    if op.unary then findOp rest str
    else
      match strIndexOf str op.cli with
      | some idx => some (op, idx)
      | none => findOp rest str

/-- The CLI token of the operator `parseFilterFlag` would match on the
expression (ignoring the leading unary `?` check). -/
def matchedCli (str : String) : Option String :=
  (findOp OPERATORS str).map (fun p => p.1.cli)

/-- `parseFilterFlag` from `src/filters.ts`.  A trailing `?` makes a
unary `$not_empty` filter; otherwise the first operator of the table
found in the string splits it into attribute / value, numeric operators
coerce values accepted by `Number()`, `=` maps to the bare API shorthand,
`!=`/`!~` wrap in `$not`, and everything else wraps in the table's API
operator.  With no operator found the function throws (`Except.error`)
with a message quoting the expression and the expected grammar. -/
def parseFilterFlag (filterStr : String) : Except String JVal :=
  if endsWithChar filterStr '?' then
    .ok (.obj [(strDropLast filterStr, .obj [("$not_empty", .b true)])])
  else
    match findOp OPERATORS filterStr with
    | some (op, idx) =>
      let attr := jsTrim (strTake filterStr idx)
      let rawValue := jsTrim (strDrop filterStr (idx + op.cli.length))
      let value : JVal :=
        if op.numeric && (jsNumber rawValue).isSome then
          .n ((jsNumber rawValue).getD 0)
        else .s rawValue
      if op.cli = "=" then .ok (.obj [(attr, value)])
      else if op.cli = "!=" then .ok (.obj [("$not", .obj [(attr, value)])])
      else if op.cli = "!~" then
        .ok (.obj [("$not", .obj [(attr, .obj [("$contains", value)])])])
      else .ok (.obj [(attr, .obj [(op.attio, value)])])
    | none =>
      .error ("Invalid filter syntax: \"" ++ filterStr
        ++ "\". Expected: attribute<operator>value")

/-- `combineFilters` from `src/filters.ts`: no fragments give the empty
filter object, one fragment passes through, several are wrapped in
`$and`. -/
def combineFilters (filters : List JVal) : JVal :=
  match filters with
  | [] => .obj []
  | [f] => f
  | fs => .obj [("$and", .arr fs)]

/-- Result shape of `parseSort`: the JS object
`{ attribute, field?, direction }` (the `field` key is present exactly
when `field` is `some`). -/
structure SortSpec where
  attr : String
  field : Option String
  direction : String
deriving Repr, DecidableEq

/-- `parseSort` from `src/filters.ts`.  JS
`const [attrPart, direction = 'asc'] = sortStr.split(':')` takes the
first two pieces of the split; the `'asc'` default applies only when the
second piece is `undefined` (no `:` at all) — an empty piece (`"name:"`)
is kept as the empty string.  The attribute part is split on `.`, and a
truthy (non-empty) second piece becomes the optional sub-field. -/
def parseSort (sortStr : String) : SortSpec :=
  let parts := splitOnCharL ':' sortStr.data
  let attrPart : List Char := parts.headD []
  let direction : String :=
    match parts with
    | _ :: d :: _ => ⟨d⟩
    | _ => "asc"
  let sub := splitOnCharL '.' attrPart
  let attrName : String := ⟨sub.headD []⟩
  let field : Option String :=
    match sub with
    | _ :: f :: _ => if f = [] then none else some ⟨f⟩
    | _ => none
  { attr := attrName, field := field, direction := direction }

/-! ## `src/values.ts` -/

/-- JS nullish test threaded through `Option`: `x ?? y` skips `x` when it
is `undefined` (`none`) or `null`. -/
def nullish : Option JVal → Option JVal
  | some .null => none
  | o => o

/-- The string a JS template literal interpolates for a field access:
`undefined` prints as `"undefined"`, `null` as `"null"`. -/
def tmplField (o : Option JVal) : String :=
  match o with
  | some v => jsToString v
  | none => "undefined"

/-- `x || ''` under a template conversion: the string of `x` when `x` is
truthy, else the empty string. -/
def orEmpty (o : Option JVal) : String :=
  match o with
  | some v => if jsFalsy v then "" else jsToString v
  | none => ""

/-- A JS `a || b || ''` chain: the first truthy value, stringified. -/
def firstTruthyStr (l : List (Option JVal)) : String :=
  match l with
  | [] => ""
  | o :: rest =>
    match o with
    | some v => if jsFalsy v then firstTruthyStr rest else jsToString v
    | none => firstTruthyStr rest

/-- JS optional chain `a?.k`: `undefined` when `a` is nullish, else the
field access. -/
def optChainField (o : Option JVal) (key : String) : Option JVal :=
  match o with
  | some .null => none
  | some v => getField v key
  | none => none

/-- Whether the JS `switch (type)` discriminant equals the literal string
`name` (JS `===`: a non-string or missing discriminant matches no case). -/
def tagIs (t : Option JVal) (name : String) : Bool :=
  match t with
  | some (.s ty) => ty = name
  | _ => false

/-- `flattenSingleValue` from `src/values.ts`: dispatch on
`attribute_type` to extract the human-meaningful field(s) — the JS
`switch` is rendered as the sequential `===` tests it performs; falsy
elements flatten to the empty string; unknown or missing types fall back
to `String(val.value ?? val.title ?? JSON.stringify(val))`.  (On inputs
outside the documented attribute-value shape — e.g. a numeric
`full_name` — JS would return a non-string or throw on `.slice`; the
model stringifies/empties there, which no claim exercises.) -/
def flattenSingleValue (val : JVal) : String :=
  if jsFalsy val then ""
  else
    let t := getField val "attribute_type"
    if tagIs t "text" || tagIs t "number" || tagIs t "checkbox"
        || tagIs t "date" || tagIs t "timestamp" || tagIs t "rating" then
      jsToString ((nullish (getField val "value")).getD (.s ""))
    else if tagIs t "currency" then
      jsToString (((nullish (getField val "currency_value")).or
        (nullish (getField val "value"))).getD (.s ""))
    else if tagIs t "personal-name" then
      match getField val "full_name" with
      | some fn =>
        if jsFalsy fn then
          jsTrim (orEmpty (getField val "first_name") ++ " "
            ++ orEmpty (getField val "last_name"))
        else jsToString fn
      | none =>
        jsTrim (orEmpty (getField val "first_name") ++ " "
          ++ orEmpty (getField val "last_name"))
    else if tagIs t "email-address" then
      firstTruthyStr [getField val "email_address",
        getField val "original_email_address"]
    else if tagIs t "phone-number" then
      firstTruthyStr [getField val "original_phone_number",
        getField val "phone_number"]
    else if tagIs t "domain" then
      firstTruthyStr [getField val "domain"]
    else if tagIs t "select" then
      firstTruthyStr [optChainField (getField val "option") "title"]
    else if tagIs t "status" then
      firstTruthyStr [optChainField (getField val "status") "title"]
    else if tagIs t "location" then
      String.intercalate ", "
        (([getField val "locality", getField val "region",
           getField val "country_code"]).filterMap (fun o =>
          match o with
          | some w => if jsFalsy w then none else some (jsToString w)
          | none => none))
    else if tagIs t "record-reference" then
      tmplField (getField val "target_object") ++ ":"
        ++ tmplField (getField val "target_record_id")
    else if tagIs t "actor-reference" then
      "member:" ++ tmplField (getField val "referenced_actor_id")
    else if tagIs t "interaction" then
      tmplField (getField val "interaction_type") ++ " @ "
        ++ (match getField val "interacted_at" with
            | some (.s str) => ⟨str.data.take 10⟩
            | _ => "")
    else
      jsToString (((nullish (getField val "value")).or
        (nullish (getField val "title"))).getD (.s (jsonStringify val)))

/-- `flattenValue` from `src/values.ts`.  The argument is `none` when JS
receives `null`/`undefined` (the `!attrValues` guard); an empty array and
a missing one both flatten to `""`; several elements are flattened
individually and joined by `", "`. -/
def flattenValue (attrValues : Option (List JVal)) : String :=
  match attrValues with
  | none => ""
  | some l =>
    if l.length = 0 then ""
    else if l.length > 1 then
      String.intercalate ", " (l.map flattenSingleValue)
    else flattenSingleValue (l.headD .null)

/-- `stripWrappingQuotes` from `src/values.ts`: remove one pair of
surrounding double or single quotes (JS `raw.slice(1, -1)`). -/
def stripWrappingQuotes (raw : String) : String :=
  if (startsWithChar raw '"' && endsWithChar raw '"')
      || (startsWithChar raw '\'' && endsWithChar raw '\'') then
    ⟨(raw.data.drop 1).dropLast⟩
  else raw

/-- `parseScalar` from `src/values.ts`: trim, strip one pair of wrapping
quotes, then coerce `true`/`false`/`null`, numbers matching
`/^-?\d+(\.\d+)?$/`, and fall back to the string itself. -/
def parseScalar (raw : String) : JVal :=
  let normalized := stripWrappingQuotes (jsTrim raw)
  if normalized = "true" then .b true
  else if normalized = "false" then .b false
  else if normalized = "null" then .null
  else if numRegexMatch normalized then .n (parseDecimal normalized)
  else .s normalized

/-- Characters JSON treats as insignificant whitespace. -/
def skipWs (cs : List Char) : List Char :=
  cs.dropWhile (fun c => c = ' ' || c = '\t' || c = '\n' || c = '\r')

/-- The single-character JSON escapes and the character each stands
for (`\b` and `\f` are the control characters `0x08`/`0x0c`). -/
def jsonEscapeTable : List (Char × Char) :=
  [('"', '"'), ('\\', '\\'), ('/', '/'), ('n', '\n'), ('t', '\t'),
   ('r', '\r'), ('b', '\x08'), ('f', '\x0c')]

/-- Body of a JSON string after the opening quote: plain characters and
the single-character escapes (`\uXXXX` escapes are not modelled — no
claim input contains one; a strict parser also rejects raw control
characters, as here). -/
def pJsonStr : List Char → Option (String × List Char)
  | [] => none
  | '"' :: rest => some ("", rest)
  | '\\' :: e :: rest =>
    (jsonEscapeTable.find? (fun pr => pr.1 = e)).bind fun pr =>
      (pJsonStr rest).map fun (p : String × List Char) => (⟨pr.2 :: p.1.data⟩, p.2)
  | c :: rest =>
    if c.toNat < 32 then none
    else (pJsonStr rest).map fun (p : String × List Char) => (⟨c :: p.1.data⟩, p.2)

/-- A JSON number (sign, digits, optional fraction; the exponent form
and the leading-zero restriction of strict JSON are not modelled — no
claim input exercises them). -/
def pJsonNum (cs : List Char) : Option (Rat × List Char) :=
  let signed : Bool × List Char :=
    match cs with
    | '-' :: t => (true, t)
    | _ => (false, cs)
  let ip := signed.2.takeWhile Char.isDigit
  let rest := signed.2.dropWhile Char.isDigit
  if ip = [] then none
  else
    match rest with
    | '.' :: t =>
      let fp := t.takeWhile Char.isDigit
      let rest2 := t.dropWhile Char.isDigit
      if fp = [] then none
      else some (applySign signed.1 ((digitsToNat ip : Rat) + fracRat fp), rest2)
    | _ => some (applySign signed.1 (digitsToNat ip), rest)

mutual

/-- Recursive-descent `JSON.parse` value, with fuel bounding the nesting
of the recursion (one unit per parsed value/element suffices, so the
callers' `length + 1` budget never runs out on inputs it can parse). -/
def pJsonVal : Nat → List Char → Option (JVal × List Char)
  | 0, _ => none
  | Nat.succ fuel, cs =>
    match skipWs cs with
    | 't' :: 'r' :: 'u' :: 'e' :: r => some (.b true, r)
    | 'f' :: 'a' :: 'l' :: 's' :: 'e' :: r => some (.b false, r)
    | 'n' :: 'u' :: 'l' :: 'l' :: r => some (.null, r)
    | '"' :: r => (pJsonStr r).map fun p => (.s p.1, p.2)
    | '[' :: r =>
      (match skipWs r with
       | ']' :: r2 => some (.arr [], r2)
       | r2 => (pJsonElems fuel r2).map fun p => (.arr p.1, p.2))
    | '{' :: r =>
      (match skipWs r with
       | '}' :: r2 => some (.obj [], r2)
       | r2 => (pJsonMems fuel r2).map fun p => (.obj p.1, p.2))
    | cs' => (pJsonNum cs').map fun p => (.n p.1, p.2)

/-- One-or-more comma-separated JSON array elements up to `]`. -/
def pJsonElems : Nat → List Char → Option (List JVal × List Char)
  | 0, _ => none
  | Nat.succ fuel, cs =>
    (pJsonVal fuel cs).bind fun p =>
      match skipWs p.2 with
      | ',' :: r2 => (pJsonElems fuel r2).map fun q => (p.1 :: q.1, q.2)
      | ']' :: r2 => some ([p.1], r2)
      | _ => none

/-- One-or-more comma-separated JSON object members up to `}`. -/
def pJsonMems : Nat → List Char → Option (List (String × JVal) × List Char)
  | 0, _ => none
  | Nat.succ fuel, cs =>
    match skipWs cs with
    | '"' :: r =>
      (pJsonStr r).bind fun pk =>
        match skipWs pk.2 with
        | ':' :: r3 =>
          (pJsonVal fuel r3).bind fun pv =>
            match skipWs pv.2 with
            | ',' :: r5 => (pJsonMems fuel r5).map fun q => ((pk.1, pv.1) :: q.1, q.2)
            | '}' :: r5 => some ([(pk.1, pv.1)], r5)
            | _ => none
        | _ => none
    | _ => none

end

/-- `JSON.parse(s)` as used by `parseSets`: `none` plays the thrown
`SyntaxError`. -/
def jsonParse (s : String) : Option JVal :=
  match pJsonVal (s.length + 1) s.data with
  | some (v, rest) => if skipWs rest = [] then some v else none
  | none => none

/-- JS object assignment `values[key] = v`: a later assignment to an
existing key overwrites its value in place, otherwise the binding is
appended. -/
def objInsert (l : List (String × JVal)) (key : String) (v : JVal) :
    List (String × JVal) :=
  if l.any (fun p => p.1 = key) then
    l.map (fun p => if p.1 = key then (key, v) else p)
  else l ++ [(key, v)]

/-- The per-pair body of the `parseSets` loop: split on the first `=`
(error without one), trim key and raw value, then: a `{…}` value tries
strict JSON parse with scalar fallback; a `[…]` value tries strict JSON
array parse, then falls back to bracket-stripping — an empty inside is
the empty array, otherwise split on `,` and scalar-coerce each piece;
everything else is scalar-coerced. -/
def parseSetsStep (acc : List (String × JVal)) (set : String) :
    Except String (List (String × JVal)) :=
  match strIndexOf set "=" with
  | none => .error ("Invalid --set format: \"" ++ set ++ "\". Expected: key=value")
  | some eqIdx =>
    let key := jsTrim (strTake set eqIdx)
    let raw := jsTrim (strDrop set (eqIdx + 1))
    let v : JVal :=
      if startsWithChar raw '{' && endsWithChar raw '}' then
        match jsonParse raw with
        | some j => j
        | none => parseScalar raw
      else if startsWithChar raw '[' && endsWithChar raw ']' then
        match jsonParse raw with
        | some (.arr a) => .arr a
        | _ =>
          let inner := jsTrim ⟨(raw.data.drop 1).dropLast⟩
          if inner = "" then .arr []
          else .arr ((splitOnCharL ',' inner.data).map
            (fun piece => parseScalar ⟨piece⟩))
      else parseScalar raw
    .ok (objInsert acc key v)

/-- `parseSets` from `src/values.ts`: fold `parseSetsStep` over the
repeated `--set key=value` pairs, building the values object. -/
def parseSets (sets : List String) : Except String (List (String × JVal)) :=
  sets.foldlM parseSetsStep []

/-! ## `src/pagination.ts` -/

/-- `PaginationOptions` from `src/pagination.ts`. -/
structure PaginationOptions where
  limit : Nat
  offset : Nat
  all : Bool
deriving Repr, DecidableEq

/-- The `while (true)` loop of `paginate` in `--all` mode, with explicit
fuel: fetch a fixed page of `500` at the current offset, keep the items,
stop when a page comes back shorter than `500`, otherwise advance the
offset by `500`.  `none` means the loop has not finished within `fuel`
iterations — a run that is `none` for every fuel never terminates. -/
def paginateAllFuel (fetchPage : Nat → Nat → List α) :
    Nat → Nat → Option (List α)
  | _, 0 => none
  | offset, Nat.succ fuel =>
    let page := fetchPage 500 offset
    if page.length < 500 then some page
    else
      match paginateAllFuel fetchPage (offset + 500) fuel with
      | some rest => some (page ++ rest)
      | none => none

/-- `paginate` from `src/pagination.ts`: without `all`, a single fetch
with the caller's `limit`/`offset`, returned verbatim; with `all`, the
fuel-bounded accumulation loop from offset `0`. -/
def paginate (fetchPage : Nat → Nat → List α) (options : PaginationOptions)
    (fuel : Nat) : Option (List α) :=
  if !options.all then some (fetchPage options.limit options.offset)
  else paginateAllFuel fetchPage 0 fuel

/-- The `(limit, offset)` arguments `paginate` passes to `fetchPage` in
`--all` mode, in call order (within the fuel bound). -/
def paginateAllCalls (fetchPage : Nat → Nat → List α) :
    Nat → Nat → List (Nat × Nat)
  | _, 0 => []
  | offset, Nat.succ fuel =>
    let page := fetchPage 500 offset
    (500, offset) ::
      (if page.length < 500 then []
       else paginateAllCalls fetchPage (offset + 500) fuel)

/-- The `(limit, offset)` arguments `paginate` passes to `fetchPage`:
exactly one caller-shaped call without `all`, the loop's calls with. -/
def paginateCalls (fetchPage : Nat → Nat → List α)
    (options : PaginationOptions) (fuel : Nat) : List (Nat × Nat) :=
  if !options.all then [(options.limit, options.offset)]
  else paginateAllCalls fetchPage 0 fuel

/-! ## Shared helper lemmas -/

/-- `findOp` returns nothing exactly when no non-unary operator token of
the table occurs in the expression. -/
lemma findOp_eq_none_iff (ops : List OpSpec) (str : String) :
    findOp ops str = none ↔
      ∀ op ∈ ops, op.unary = false → strIndexOf str op.cli = none := by
  induction ops with
  | nil => simp [findOp]
  | cons op rest ih =>
    by_cases hu : op.unary
    · simp only [findOp, if_pos hu, ih]
      constructor
      · rintro h op' hmem hbin
        rcases List.mem_cons.mp hmem with rfl | hmem'
        · exact absurd hu (by simp [hbin])
        · exact h op' hmem' hbin
      · intro h op' hmem hbin
        exact h op' (List.mem_cons_of_mem _ hmem) hbin
    · rcases hix : strIndexOf str op.cli with _ | i
      · simp only [findOp, if_neg hu, hix, ih]
        constructor
        · rintro h op' hmem hbin
          rcases List.mem_cons.mp hmem with rfl | hmem'
          · exact hix
          · exact h op' hmem' hbin
        · intro h op' hmem hbin
          exact h op' (List.mem_cons_of_mem _ hmem) hbin
      · simp only [findOp, if_neg hu, hix]
        constructor
        · intro h
          exact Option.noConfusion h
        · intro h
          have hc := h op (List.mem_cons_self _ _) (by simpa using hu)
          rw [hc] at hix
          exact Option.noConfusion hix

/-- The `OPERATORS` entry for `=`. -/
def eqOpSpec : OpSpec := { cli := "=", attio := "$eq" }

/-- The `OPERATORS` entry for `>=`. -/
def gteOpSpec : OpSpec := { cli := ">=", attio := "$gte", numeric := true }

/-- The attribute types given a dedicated `case` by
`flattenSingleValue`'s switch. -/
def knownAttrTypes : List String :=
  ["text", "number", "checkbox", "date", "timestamp", "rating", "currency",
   "personal-name", "email-address", "phone-number", "domain", "select",
   "status", "location", "record-reference", "actor-reference", "interaction"]

/-- Whether an `attribute_type` discriminant hits any dedicated switch
case (a non-string or missing discriminant hits none). -/
def isKnownAttrType (t : Option JVal) : Bool :=
  knownAttrTypes.any (fun name => tagIs t name)

/-- An element whose `attribute_type` hits no switch case flattens by
the default fallback expression. -/
lemma flattenSingleValue_default (v : JVal) (hfal : jsFalsy v = false)
    (hk : isKnownAttrType (getField v "attribute_type") = false) :
    flattenSingleValue v =
      jsToString (((nullish (getField v "value")).or
        (nullish (getField v "title"))).getD (.s (jsonStringify v))) := by
  have hk' := hk
  simp only [isKnownAttrType, knownAttrTypes, List.any_cons, List.any_nil,
    Bool.or_eq_false_iff] at hk'
  obtain ⟨h1, h2, h3, h4, h5, h6, h7, h8, h9, h10, h11, h12, h13, h14, h15,
    h16, h17, -⟩ := hk'
  simp [flattenSingleValue, hfal, h1, h2, h3, h4, h5, h6, h7, h8, h9, h10,
    h11, h12, h13, h14, h15, h16, h17]

/-- A one-element value array flattens via `flattenSingleValue`. -/
lemma flattenValue_singleton (v : JVal) :
    flattenValue (some [v]) = flattenSingleValue v := rfl

/-- `x ?? y` keeps a present non-`null` value. -/
lemma nullish_some_of_ne_null (w : JVal) (h : w ≠ JVal.null) :
    nullish (some w) = some w := by
  cases w with
  | null => exact absurd rfl h
  | _ => rfl

/-- Splitting on a character that does not occur yields the whole
string as the single piece. -/
lemma splitOnCharL_of_not_mem (c : Char) (cs : List Char) (h : c ∉ cs) :
    splitOnCharL c cs = [cs] := by
  induction cs with
  | nil => rfl
  | cons x xs ih =>
    have hx : ¬ x = c := fun e => h (e ▸ List.mem_cons_self x xs)
    rw [splitOnCharL]
    simp [hx, ih (fun hm => h (List.mem_cons_of_mem _ hm))]

/-- A fetch stub that always returns a full page of `500` items
(items numbered from the requested offset). -/
def alwaysFullFetch : Nat → Nat → List Nat :=
  fun _ offset => (List.range 500).map (· + offset)

/-- A fetch function whose pages never come back shorter than the fixed
page size `500` — the hypothesis of the pagination-ceiling claim. -/
def neverShortPage (f : Nat → Nat → List Nat) : Prop :=
  ∀ offset : Nat, 500 ≤ (f 500 offset).length

/-- With no short page the `--all` loop never reaches its only exit:
for every fuel bound it has not terminated. -/
lemma paginateAllFuel_none_of_neverShort (f : Nat → Nat → List Nat)
    (h : neverShortPage f) :
    ∀ fuel offset, paginateAllFuel f offset fuel = none := by
  intro fuel
  induction fuel with
  | zero => intro offset; rfl
  | succ n ih =>
    intro offset
    have hlen : ¬ (f 500 offset).length < 500 := not_lt.mpr (h offset)
    simp only [paginateAllFuel, if_neg hlen, ih (offset + 500)]

/-- The three-page fetch stub of the pagination claim: full pages of
`500` at offsets `0` and `500`, a short page of `137` at offset `1000`
(items numbered from the offset, so the concatenation is `0..1136`). -/
def pagedFetchStub : Nat → Nat → List Nat := fun _ offset =>
  if 1000 ≤ offset then (List.range 137).map (· + offset)
  else (List.range 500).map (· + offset)

/-- With the head and last character not whitespace, `trim()` returns
the string unchanged. -/
lemma jsTrimL_wrapped (q : Char) (hq : isWsChar q = false) (l : List Char) :
    jsTrimL (q :: (l ++ [q])) = q :: (l ++ [q]) := by
  have h1 : List.dropWhile isWsChar (q :: (l ++ [q])) = q :: (l ++ [q]) := by
    simp [List.dropWhile_cons, hq]
  have h2 : (q :: (l ++ [q])).reverse = q :: (l.reverse ++ [q]) := by
    simp
  rw [jsTrimL, h1, h2]
  simp [List.dropWhile_cons, hq]

/-- Wrapping a string in a pair of (single or double) quotes and
stripping them recovers the string. -/
lemma stripWrappingQuotes_wrapped (q : Char) (hq : q = '"' ∨ q = '\'')
    (s : String) :
    stripWrappingQuotes ⟨q :: (s.data ++ [q])⟩ = s := by
  have hstart : startsWithChar ⟨q :: (s.data ++ [q])⟩ q = true := by
    simp [startsWithChar]
  have hend : endsWithChar ⟨q :: (s.data ++ [q])⟩ q = true := by
    rw [endsWithChar, show q :: (s.data ++ [q]) = (q :: s.data) ++ [q] from rfl,
      List.getLast?_concat]
    simp
  rcases hq with rfl | rfl
  · rw [stripWrappingQuotes, if_pos (by simp [hstart, hend])]
    simp [List.dropLast_concat]
  · rw [stripWrappingQuotes, if_pos (by simp [hstart, hend])]
    simp [List.dropLast_concat]

/-- For an input that trimming and quote-stripping leave unchanged,
`parseScalar` of the quote-wrapped input equals `parseScalar` of the
bare input: the quotes are stripped before the coercion tests run. -/
lemma parseScalar_quoted (q : Char) (hq : q = '"' ∨ q = '\'') (s : String)
    (htrim : jsTrim s = s) (hstrip : stripWrappingQuotes s = s) :
    parseScalar ⟨q :: (s.data ++ [q])⟩ = parseScalar s := by
  have hwq : isWsChar q = false := by rcases hq with rfl | rfl <;> rfl
  have hnorm : stripWrappingQuotes (jsTrim ⟨q :: (s.data ++ [q])⟩) = s := by
    rw [show jsTrim ⟨q :: (s.data ++ [q])⟩
        = ⟨jsTrimL (q :: (s.data ++ [q]))⟩ from rfl,
      jsTrimL_wrapped q hwq, stripWrappingQuotes_wrapped q hq]
  rw [parseScalar, parseScalar, hnorm, htrim, hstrip]

/-! ## Claim theorems -/

/-- C1 (counterexample).  The claim says the `--all` loop stops after a
fixed safety ceiling of accumulated items and returns the partial
results with a warning when `fetchPage` never returns a short page.  The
code has no such ceiling: against a fetch that always returns full pages
of `500`, `paginate` with `all := true` produces no result for any fuel
bound — the `while (true)` loop never terminates, so no ceiling-bounded
partial result is ever returned. -/
theorem c1_pagination_ceiling_counterexample :
    ¬ ∃ fuel res, paginate alwaysFullFetch ⟨25, 0, true⟩ fuel = some res := by
  rintro ⟨fuel, res, hres⟩
  have hfull : neverShortPage alwaysFullFetch := by
    intro offset
    simp [alwaysFullFetch]
  rw [show paginate alwaysFullFetch ⟨25, 0, true⟩ fuel
      = paginateAllFuel alwaysFullFetch 0 fuel from rfl,
    paginateAllFuel_none_of_neverShort alwaysFullFetch hfull fuel 0] at hres
  exact Option.noConfusion hres

/-- C1 (amended).  `paginate` with `all := true` has no safety ceiling:
whenever `fetchPage` never returns a page shorter than the page size
`500`, the loop fails to terminate within any fuel bound (it stops only
when a short page arrives), so it loops forever instead of returning
accumulated results with a warning. -/
theorem c1_pagination_no_ceiling_diverges (f : Nat → Nat → List Nat)
    (h : neverShortPage f) (limit offset fuel : Nat) :
    paginate f ⟨limit, offset, true⟩ fuel = none := by
  rw [show paginate f ⟨limit, offset, true⟩ fuel
      = paginateAllFuel f 0 fuel from rfl]
  exact paginateAllFuel_none_of_neverShort f h fuel 0

/-- C1 witness: the divergence theorem applied to the always-full fetch
stub at fuel `7`. -/
theorem c1_pagination_no_ceiling_diverges_witness :
    neverShortPage alwaysFullFetch ∧
    paginate alwaysFullFetch ⟨25, 40, true⟩ 7 = none :=
  ⟨fun offset => by simp [alwaysFullFetch],
   c1_pagination_no_ceiling_diverges alwaysFullFetch
     (fun offset => by simp [alwaysFullFetch]) 25 40 7⟩

/-- C2.  For the operator pairs in which one token textually extends the
other (`>`/`>=`, `<`/`<=`, `=`/`!=`, `~`/`!~`), the matching loop never
selects the shorter token when the longer one occurs in the expression
(the table tries `>=`, `<=`, `!=` before `>`, `<`, `=`, and `!~` before
`~`); in particular an expression containing `>=` always matches `>=`
itself, and `"revenue>=50"` parses to `{revenue: {$gte: 50}}` — never to
attribute `"revenue"`, operator `>`, value `"=50"`. -/
theorem c2_longer_operator_wins :
    (∀ s : String, strIndexOf s ">=" ≠ none → matchedCli s = some ">=") ∧
    (∀ s : String, strIndexOf s "<=" ≠ none → matchedCli s ≠ some "<") ∧
    (∀ s : String, strIndexOf s "!=" ≠ none → matchedCli s ≠ some "=") ∧
    (∀ s : String, strIndexOf s "!~" ≠ none → matchedCli s ≠ some "~") ∧
    parseFilterFlag "revenue>=50" =
      .ok (.obj [("revenue", .obj [("$gte", .n 50)])]) ∧
    parseFilterFlag "revenue>=50" ≠
      .ok (.obj [("revenue", .obj [("$gt", .s "=50")])]) := by
  refine ⟨?_, ?_, ?_, ?_, rfl, ?_⟩
  · intro s h
    rcases hge : strIndexOf s ">=" with _ | i
    · exact absurd hge h
    · simp [matchedCli, findOp, OPERATORS, hge]
  · intro s h
    rcases hge : strIndexOf s ">=" with _ | i
    · rcases hle : strIndexOf s "<=" with _ | j
      · exact absurd hle h
      · simp [matchedCli, findOp, OPERATORS, hge, hle]
    · simp [matchedCli, findOp, OPERATORS, hge]
  · intro s h
    rcases hge : strIndexOf s ">=" with _ | i
    · rcases hle : strIndexOf s "<=" with _ | j
      · rcases hne : strIndexOf s "!=" with _ | k
        · exact absurd hne h
        · simp [matchedCli, findOp, OPERATORS, hge, hle, hne]
      · simp [matchedCli, findOp, OPERATORS, hge, hle]
    · simp [matchedCli, findOp, OPERATORS, hge]
  · intro s h
    rcases hge : strIndexOf s ">=" with _ | i
    · rcases hle : strIndexOf s "<=" with _ | j
      · rcases hne : strIndexOf s "!=" with _ | k
        · rcases hgt : strIndexOf s ">" with _ | a
          · rcases hlt : strIndexOf s "<" with _ | b
            · rcases hnc : strIndexOf s "!~" with _ | c
              · exact absurd hnc h
              · simp [matchedCli, findOp, OPERATORS, hge, hle, hne, hgt, hlt, hnc]
            · simp [matchedCli, findOp, OPERATORS, hge, hle, hne, hgt, hlt]
          · simp [matchedCli, findOp, OPERATORS, hge, hle, hne, hgt]
        · simp [matchedCli, findOp, OPERATORS, hge, hle, hne]
      · simp [matchedCli, findOp, OPERATORS, hge, hle]
    · simp [matchedCli, findOp, OPERATORS, hge]
  · intro h
    rw [show parseFilterFlag "revenue>=50" =
        .ok (.obj [("revenue", .obj [("$gte", .n 50)])]) from rfl] at h
    simp at h

/-- C2 witness: the first conjunct applied to `"revenue>=50"`. -/
theorem c2_longer_operator_wins_witness :
    strIndexOf "revenue>=50" ">=" ≠ none ∧
    matchedCli "revenue>=50" = some ">=" :=
  ⟨by decide, c2_longer_operator_wins.1 "revenue>=50" (by decide)⟩

/-- C3.  Without `all`, `paginate` makes exactly one fetch call with the
caller's `limit`/`offset` (e.g. offset `40`) and returns that page
verbatim; with `all` it fetches fixed pages of `500` from offset `0` and
stops at the first short page: on the `[500, 500, 137]` stub it returns
all `1137` items in order after exactly the three calls at offsets `0`,
`500`, `1000`, the third page being short (`137 < 500`). -/
theorem c3_paginate_modes :
    (∀ (f : Nat → Nat → List Nat) (limit offset fuel : Nat),
        paginate f ⟨limit, offset, false⟩ fuel = some (f limit offset) ∧
        paginateCalls f ⟨limit, offset, false⟩ fuel = [(limit, offset)]) ∧
    paginate pagedFetchStub ⟨25, 0, true⟩ 3 = some (List.range 1137) ∧
    paginateCalls pagedFetchStub ⟨25, 0, true⟩ 3 =
      [(500, 0), (500, 500), (500, 1000)] ∧
    (pagedFetchStub 500 1000).length = 137 := by
  have hmode : ∀ (f : Nat → Nat → List Nat) (limit offset fuel : Nat),
      paginate f ⟨limit, offset, false⟩ fuel = some (f limit offset) ∧
      paginateCalls f ⟨limit, offset, false⟩ fuel = [(limit, offset)] :=
    fun f limit offset fuel => ⟨rfl, rfl⟩
  have hcalls : paginateCalls pagedFetchStub ⟨25, 0, true⟩ 3 =
      [(500, 0), (500, 500), (500, 1000)] := by
    simp [paginateCalls, paginateAllCalls, pagedFetchStub]
  have hlen : (pagedFetchStub 500 1000).length = 137 := by
    simp [pagedFetchStub]
  have hall : paginate pagedFetchStub ⟨25, 0, true⟩ 3 = some (List.range 1137) := by
    have h1137 : List.range 1137
        = (List.range 500 ++ ((List.range 500).map (500 + ·)
            ++ (List.range 137).map (1000 + ·))) := by
      rw [show (1137 : Nat) = 500 + (500 + 137) from rfl, List.range_add,
        List.range_add, List.map_append, List.map_map]
      simp [Function.comp, Nat.add_assoc]
    simp [paginate, paginateAllFuel, pagedFetchStub, h1137, Nat.add_comm]
  exact ⟨hmode, hall, hcalls, hlen⟩

/-- C4.  When `=` is the matched operator, `parseFilterFlag` yields the
bare API shorthand `{attr: value}` with no operator wrapper (and no
numeric coercion, `=` not being numeric); when the numeric operator `>=`
is matched and the raw value converts under `Number()`, the value is
coerced to that number; and parsing then combining `'name~Acme'` and
`'employee_count>=50'` produces exactly
`{$and: [{name: {$contains: "Acme"}}, {employee_count: {$gte: 50}}]}`. -/
theorem c4_eq_shorthand_numeric_coercion :
    (∀ (s : String) (i : Nat),
        endsWithChar s '?' = false →
        findOp OPERATORS s = some (eqOpSpec, i) →
        parseFilterFlag s =
          .ok (.obj [(jsTrim (strTake s i), .s (jsTrim (strDrop s (i + 1))))])) ∧
    (∀ (s : String) (i : Nat) (q : Rat),
        endsWithChar s '?' = false →
        findOp OPERATORS s = some (gteOpSpec, i) →
        jsNumber (jsTrim (strDrop s (i + 2))) = some q →
        parseFilterFlag s =
          .ok (.obj [(jsTrim (strTake s i), .obj [("$gte", .n q)])])) ∧
    parseFilterFlag "name~Acme" =
      .ok (.obj [("name", .obj [("$contains", .s "Acme")])]) ∧
    parseFilterFlag "employee_count>=50" =
      .ok (.obj [("employee_count", .obj [("$gte", .n 50)])]) ∧
    combineFilters
        [.obj [("name", .obj [("$contains", .s "Acme")])],
         .obj [("employee_count", .obj [("$gte", .n 50)])]] =
      .obj [("$and", .arr
        [.obj [("name", .obj [("$contains", .s "Acme")])],
         .obj [("employee_count", .obj [("$gte", .n 50)])]])] := by
  refine ⟨?_, ?_, rfl, rfl, rfl⟩
  · intro s i hq hf
    simp [parseFilterFlag, hq, hf, eqOpSpec,
      show ("=" : String).length = 1 from rfl]
  · intro s i q hq hf hn
    simp [parseFilterFlag, hq, hf, gteOpSpec, hn,
      show (">=" : String).length = 2 from rfl]

/-- C4 witness: the `=` shorthand at `"stage=Won"` and the `>=` numeric
coercion at `"n>=7"`. -/
theorem c4_eq_shorthand_numeric_coercion_witness :
    endsWithChar "stage=Won" '?' = false ∧
    findOp OPERATORS "stage=Won" = some (eqOpSpec, 5) ∧
    parseFilterFlag "stage=Won" = .ok (.obj [("stage", .s "Won")]) ∧
    jsNumber (jsTrim (strDrop "n>=7" (1 + 2))) = some 7 ∧
    parseFilterFlag "n>=7" = .ok (.obj [("n", .obj [("$gte", .n 7)])]) := by
  refine ⟨rfl, rfl, ?_, rfl, ?_⟩
  · exact c4_eq_shorthand_numeric_coercion.1 "stage=Won" 5 rfl rfl
  · exact c4_eq_shorthand_numeric_coercion.2.1 "n>=7" 1 7 rfl rfl rfl

/-- C5.  `combineFilters` of no fragments is the empty filter object, of
one fragment is that fragment itself, and of two or more fragments is
the `$and` of the list. -/
theorem c5_combineFilters_cases :
    combineFilters [] = .obj [] ∧
    (∀ f : JVal, combineFilters [f] = f) ∧
    (∀ (f g : JVal) (rest : List JVal),
        combineFilters (f :: g :: rest) = .obj [("$and", .arr (f :: g :: rest))]) :=
  ⟨rfl, fun _ => rfl, fun _ _ _ => rfl⟩

/-- C6.  `flattenValue` is a total function into strings (in the model,
by construction — the embedding has no failure case to reach): a missing
or empty array flattens to `""`, every input produces some string, and a
truthy element whose `attribute_type` matches no dedicated case falls
back, in order, to its `value` field, else its `title` field, else the
full JSON serialization of the element. -/
theorem c6_flattenValue_total_fallback :
    flattenValue none = "" ∧
    flattenValue (some []) = "" ∧
    (∀ x : Option (List JVal), ∃ out : String, flattenValue x = out) ∧
    (∀ v : JVal, jsFalsy v = false →
      isKnownAttrType (getField v "attribute_type") = false →
      ((∀ w, getField v "value" = some w → w ≠ JVal.null →
          flattenValue (some [v]) = jsToString w) ∧
       (nullish (getField v "value") = none →
          ∀ w, getField v "title" = some w → w ≠ JVal.null →
            flattenValue (some [v]) = jsToString w) ∧
       (nullish (getField v "value") = none →
          nullish (getField v "title") = none →
          flattenValue (some [v]) = jsonStringify v))) := by
  refine ⟨rfl, rfl, fun x => ⟨_, rfl⟩, ?_⟩
  intro v hfal hk
  have hdef := flattenSingleValue_default v hfal hk
  rw [flattenValue_singleton]
  refine ⟨?_, ?_, ?_⟩
  · intro w hw hwn
    rw [hdef, hw, nullish_some_of_ne_null w hwn]
    rfl
  · intro hnv w hw hwn
    rw [hdef, hnv, hw, nullish_some_of_ne_null w hwn]
    rfl
  · intro hnv hnt
    rw [hdef, hnv, hnt]
    rfl

/-- An attribute value with an unrecognized `attribute_type` and a
populated `value` field, for the C6 witness. -/
def c6ExampleVal : JVal :=
  .obj [("attribute_type", .s "shiny-new-type"), ("value", .s "42")]

/-- C6 witness: the unknown-type fallback applied to a concrete element
with a `value` field. -/
theorem c6_flattenValue_total_fallback_witness :
    jsFalsy c6ExampleVal = false ∧
    isKnownAttrType (getField c6ExampleVal "attribute_type") = false ∧
    getField c6ExampleVal "value" = some (.s "42") ∧
    flattenValue (some [c6ExampleVal]) = "42" :=
  ⟨rfl, rfl, rfl,
    (c6_flattenValue_total_fallback.2.2.2 c6ExampleVal rfl rfl).1
      (.s "42") rfl (fun h => JVal.noConfusion h)⟩

/-- C7.  `parseSets` bracket handling: `"tags=[]"` yields the empty
array, a strict JSON array value is parsed as JSON, and a bracketed
value that is not valid JSON falls back to comma-splitting with
per-element scalar coercion. -/
theorem c7_parseSets_brackets :
    parseSets ["tags=[]"] = .ok [("tags", .arr [])] ∧
    parseSets ["domains=[\"acme.com\",\"x.com\"]"] =
      .ok [("domains", .arr [.s "acme.com", .s "x.com"])] ∧
    parseSets ["tags=[alpha,2,true]"] =
      .ok [("tags", .arr [.s "alpha", .n 2, .b true])] :=
  ⟨rfl, rfl, rfl⟩

/-- C8 (counterexample).  The claim says `"name:"` yields direction
`"asc"`; in the code the destructuring default `direction = 'asc'`
applies only to a missing piece, not to the empty piece produced by a
trailing `:`, so `parseSort "name:"` has direction `""`, not `"asc"`. -/
theorem c8_parseSort_empty_direction_counterexample :
    (parseSort "name:").direction ≠ "asc" := by decide

/-- C8 (amended).  `parseSort` takes the first two `:`-separated pieces;
the direction defaults to `"asc"` only when the expression contains no
`:` at all, while a trailing `:` (empty second piece) gives the empty
direction; the attribute part is split on `.` with a truthy second piece
becoming the optional sub-field, omitted when no `.` is present:
`"name"` gives direction `"asc"`, `"name:"` gives direction `""`, and
`"name.last_name:desc"` gives attribute `"name"`, field `"last_name"`,
direction `"desc"`. -/
theorem c8_parseSort_amended :
    parseSort "name" = ⟨"name", none, "asc"⟩ ∧
    parseSort "name:" = ⟨"name", none, ""⟩ ∧
    parseSort "name.last_name:desc" = ⟨"name", some "last_name", "desc"⟩ ∧
    parseSort "created_at:desc" = ⟨"created_at", none, "desc"⟩ ∧
    (∀ s : String, ':' ∉ s.data → (parseSort s).direction = "asc") := by
  refine ⟨rfl, rfl, rfl, rfl, ?_⟩
  intro s h
  simp [parseSort, splitOnCharL_of_not_mem ':' s.data h]

/-- C8 witness: the colon-free default applied to `"plain"`. -/
theorem c8_parseSort_amended_witness :
    ':' ∉ ("plain" : String).data ∧ (parseSort "plain").direction = "asc" :=
  ⟨by decide, c8_parseSort_amended.2.2.2.2 "plain" (by decide)⟩

/-- C9.  `parseFilterFlag` throws exactly when the expression does not
end in `?` and contains no binary (non-unary) operator token, and the
error message quotes the offending expression together with the expected
grammar; an expression ending in `?` or containing a binary operator
token never raises.  (The claim's restatement "contains at least one
operator token" is read as the contrapositive of its own "no binary
operator token" condition: the unary `?` token counts only at the end of
the expression.) -/
theorem c9_filter_syntax_error :
    ∀ s : String,
      ((∃ e, parseFilterFlag s = .error e) ↔
        (endsWithChar s '?' = false ∧
         ∀ op ∈ OPERATORS, op.unary = false → strIndexOf s op.cli = none)) ∧
      (∀ e, parseFilterFlag s = .error e →
        e = "Invalid filter syntax: \"" ++ s
          ++ "\". Expected: attribute<operator>value") := by
  intro s
  by_cases hq : endsWithChar s '?'
  · constructor
    · simp [parseFilterFlag, hq]
    · intro e he
      simp [parseFilterFlag, hq] at he
  · rcases hf : findOp OPERATORS s with _ | opIdx
    · constructor
      · constructor
        · intro _
          exact ⟨by simpa using hq, (findOp_eq_none_iff OPERATORS s).mp hf⟩
        · intro _
          exact ⟨"Invalid filter syntax: \"" ++ s
              ++ "\". Expected: attribute<operator>value",
            by simp [parseFilterFlag, hq, hf]⟩
      · intro e he
        simpa [parseFilterFlag, hq, hf] using he.symm
    · have hnoerr : ∀ e, parseFilterFlag s ≠ .error e := by
        intro e he
        simp only [parseFilterFlag, hq, Bool.false_eq_true, if_false, hf] at he
        repeat' split at he
        all_goals exact Except.noConfusion he
      refine ⟨⟨fun h => ?_, fun h => ?_⟩, fun e he => absurd he (hnoerr e)⟩
      · obtain ⟨e, he⟩ := h
        exact absurd he (hnoerr e)
      · rw [(findOp_eq_none_iff OPERATORS s).mpr h.2] at hf
        exact Option.noConfusion hf

/-- C9 witness: the operatorless expression `"noop"` raises with the
documented message. -/
theorem c9_filter_syntax_error_witness :
    parseFilterFlag "noop" =
      .error "Invalid filter syntax: \"noop\". Expected: attribute<operator>value" ∧
    ("Invalid filter syntax: \"noop\". Expected: attribute<operator>value" : String) =
      "Invalid filter syntax: \"" ++ "noop" ++ "\". Expected: attribute<operator>value" :=
  ⟨rfl, (c9_filter_syntax_error "noop").2 _ rfl⟩

/-- C10.  `--set` scalar coercion strips one pair of surrounding single
or double quotes from the trimmed raw value before the
boolean/null/number tests, so a quoted value still coerces:
`flag="true"` yields the boolean, `n="5"` yields the number, and in
general quoting a (trimmed, unquoted) value cannot change how it
parses — quoting cannot force it to remain a string. -/
theorem c10_quoted_scalar_coercion :
    parseSets ["flag=\"true\""] = .ok [("flag", .b true)] ∧
    parseSets ["n=\"5\""] = .ok [("n", .n 5)] ∧
    parseScalar "\"true\"" = .b true ∧
    parseScalar "'false'" = .b false ∧
    parseScalar "'null'" = .null ∧
    parseScalar "\"5\"" = .n 5 ∧
    (∀ s : String, jsTrim s = s → stripWrappingQuotes s = s →
      parseScalar ("\"" ++ s ++ "\"") = parseScalar s) := by
  refine ⟨rfl, rfl, rfl, rfl, rfl, rfl, ?_⟩
  intro s htrim hstrip
  have hmk : ("\"" ++ s ++ "\"") = (⟨'"' :: (s.data ++ ['"'])⟩ : String) := by
    cases s with
    | mk d => rfl
  rw [hmk]
  exact parseScalar_quoted '"' (Or.inl rfl) s htrim hstrip

/-- C10 witness: the general quoted-coercion fact applied to `"true"`. -/
theorem c10_quoted_scalar_coercion_witness :
    jsTrim "true" = "true" ∧ stripWrappingQuotes "true" = "true" ∧
    parseScalar ("\"" ++ "true" ++ "\"") = parseScalar "true" :=
  ⟨rfl, rfl, c10_quoted_scalar_coercion.2.2.2.2.2.2 "true" rfl rfl⟩
